import Mathlib

/-!
Verification development for the `parcel` tracking CLI (Go).

The embedding models the two core components of the program:

* the tokenizing extractor `Parse`, which scans an HTML token stream and
  collects the delivery-status block and the table-cell update rows, and
* the date normalizers `ParseUpdateDateTime`, `ParseDeliveryDate` and
  `ParseEstimatedDelivery`, which wrap Go `time.ParseInLocation` calls on
  five fixed layouts plus a year-inference heuristic.

Modelling conventions:

* An HTML token stream is a list of tokens followed by a terminal condition
  (clean end of stream, or a read error), mirroring `x/net/html.Tokenizer`
  where `Next` yields `ErrorToken` at the end and `Err` reports either
  `io.EOF` or the underlying failure.
* Go `time.Time` values produced here are civil datetimes
  (year, month, day, hour, minute) in the single configured zone `TZ`.
  The zone is modelled as a fixed UTC offset in minutes, threaded as an
  explicit parameter `off`; `time.Now()` is threaded as the explicit
  parameter `now`, a civil datetime in that same zone, so `now.Before dt`
  is the lexicographic comparison of civil fields.  All parsed values have
  zero seconds, so ignoring the seconds of `now` cannot change the result
  of the strict comparison against a parsed value.
* Go's `time.Parse` is reproduced layout by layout: sequential consumption,
  ASCII case-insensitive name tables with prefix lookup, `getnum` for one
  or two digit numerals, exact literal separators, case-sensitive "PM"/"AM",
  four-digit years, 12-hour range check, minute range check and the final
  day-in-month validation.  The parsed weekday is discarded, as in Go.
-/

/-- The sentinel errors `ErrNum` and `ErrCarrier` from the source. -/
inductive GoErr where
  | errNum
  | errCarrier
deriving DecidableEq, Repr

/-- One tracking update row, as in the `Update` struct. -/
structure Update where
  dateTime : String
  location : String
  status : String
deriving DecidableEq, Repr

/-- The `Result` struct populated by `Parse` and annotated by `main`. -/
structure Result where
  trackingNum : String
  carrier : String
  delivered : Bool
  deliveryDateTime : String
  updates : List Update
deriving DecidableEq, Repr

/-- The zero value `*new(Result)` of the `Result` struct. -/
def Result.zero : Result := ⟨"", "", false, "", []⟩

/-- The anonymous scratch struct holding one partially collected row. -/
structure Tmp where
  date : String
  time : String
  location : String
  status : String
deriving DecidableEq, Repr

/-- The zero value of the scratch struct. -/
def Tmp.zero : Tmp := ⟨"", "", "", ""⟩

/-- A civil datetime in the configured zone (a Go `time.Time` as used by
the program: all parsed values are minute-precise with zero seconds). -/
structure Civil where
  year : Int
  month : Nat
  day : Nat
  hour : Nat
  minute : Nat
deriving DecidableEq, Repr

/-- `now.Before dt` for two times in the same fixed-offset zone:
lexicographic comparison of the civil fields. -/
def Civil.before (a b : Civil) : Bool :=
  if a.year ≠ b.year then decide (a.year < b.year)
  else if a.month ≠ b.month then decide (a.month < b.month)
  else if a.day ≠ b.day then decide (a.day < b.day)
  else if a.hour ≠ b.hour then decide (a.hour < b.hour)
  else decide (a.minute < b.minute)

/-- HTML tokens as seen through `html.Tokenizer`: start tags with their
attribute list, text tokens, and every other token kind (end tags,
comments, self-closing tags, doctype), which the loop ignores. -/
inductive Tok where
  | startTag (name : String) (attrs : List (String × String))
  | text (s : String)
  | other
deriving DecidableEq, Repr

/-- What the tokenizer reports once the token list is exhausted:
`io.EOF` on clean end of stream, or the underlying read error. -/
inductive Terminal where
  | eof
  | err (e : String)
deriving DecidableEq, Repr

/-! ## Character and numeral helpers (Go `strconv` and `time` internals) -/

/-- ASCII decimal digit test, as in Go `isDigit`. -/
def isDigitCh (c : Char) : Bool := '0' ≤ c ∧ c ≤ '9'

/-- Numeric value of an ASCII digit character. -/
def dval (c : Char) : Nat := c.toNat - 48

/-- The ASCII digit character for a value below ten. -/
def digitChar (n : Nat) : Char := Char.ofNat (48 + n)

/-- ASCII lowercasing of one character, the case folding used by Go
`time`'s `match` on its ASCII name tables. -/
def lowerCh (c : Char) : Char :=
  if 'A' ≤ c ∧ c ≤ 'Z' then Char.ofNat (c.toNat + 32) else c

/-- ASCII case-insensitive equality of two equal-length character lists,
as in Go `time.match`. -/
def matchCI : List Char → List Char → Bool
  | [], [] => true
  | a :: as, b :: bs => lowerCh a = lowerCh b && matchCI as bs
  | _, _ => false

/-- Consume an exact literal character sequence (layout separator text is
matched case-sensitively by Go `time.Parse`). -/
def litChars : List Char → List Char → Option (List Char)
  | [], cs => some cs
  | p :: ps, c :: cs => if p = c then litChars ps cs else none
  | _ :: _, [] => none

/-- Consume an exact literal string. -/
def lit (pat : String) (cs : List Char) : Option (List Char) :=
  litChars pat.toList cs

/-- Go `time.getnum`: one or two digits; with `fixed` set, exactly two. -/
def getnum (fixed : Bool) : List Char → Option (Nat × List Char)
  | [] => none
  | c1 :: rest =>
    if isDigitCh c1 then
      match rest with
      | c2 :: rest2 =>
        if isDigitCh c2 then some (dval c1 * 10 + dval c2, rest2)
        else if fixed then none else some (dval c1, rest)
      | [] => if fixed then none else some (dval c1, [])
    else none

/-- Go `time.Parse` on the `2006` verb: exactly four decimal digits. -/
def getnum4 : List Char → Option (Nat × List Char)
  | c1 :: c2 :: c3 :: c4 :: rest =>
    if isDigitCh c1 && isDigitCh c2 && isDigitCh c3 && isDigitCh c4 then
      some (((dval c1 * 10 + dval c2) * 10 + dval c3) * 10 + dval c4, rest)
    else none
  | _ => none

/-- Go `time.Parse` on the `PM` verb: exactly the two uppercase characters
`PM` or `AM` (the lowercase forms belong to the `pm` verb, unused here). -/
def ampm : List Char → Option (Bool × List Char)
  | 'P' :: 'M' :: rest => some (true, rest)
  | 'A' :: 'M' :: rest => some (false, rest)
  | _ => none

/-- Go `time.lookup`: find the first table entry that is an ASCII
case-insensitive prefix of the input, returning its index and the rest. -/
def lookupTab : List String → Nat → List Char → Option (Nat × List Char)
  | [], _, _ => none
  | v :: tab, i, val =>
    if v.length ≤ val.length && matchCI (val.take v.length) v.toList then
      some (i, val.drop v.length)
    else lookupTab tab (i + 1) val

/-- Go `time.shortMonthNames`. -/
def shortMonthNames : List String :=
  ["Jan", "Feb", "Mar", "Apr", "May", "Jun",
   "Jul", "Aug", "Sep", "Oct", "Nov", "Dec"]

/-- Go `time.longMonthNames`. -/
def longMonthNames : List String :=
  ["January", "February", "March", "April", "May", "June",
   "July", "August", "September", "October", "November", "December"]

/-- Go `time.shortDayNames`. -/
def shortDayNames : List String :=
  ["Sun", "Mon", "Tue", "Wed", "Thu", "Fri", "Sat"]

/-- Go `time.longDayNames`. -/
def longDayNames : List String :=
  ["Sunday", "Monday", "Tuesday", "Wednesday", "Thursday", "Friday", "Saturday"]

/-- Decimal digit expansion, most significant first; fuel-based so that the
kernel can evaluate it (the fuel `n + 1` always suffices since `n / 10`
strictly decreases). -/
def natDigitsAux : Nat → Nat → List Char → List Char
  | 0, _, acc => acc
  | fuel + 1, n, acc =>
    if n < 10 then digitChar n :: acc
    else natDigitsAux fuel (n / 10) (digitChar (n % 10) :: acc)

/-- Decimal digits of a natural number, most significant first. -/
def natDigits (n : Nat) : List Char := natDigitsAux (n + 1) n []

/-- Go `strconv.Itoa` on an `int`. -/
def Itoa (i : Int) : String :=
  if i < 0 then "-" ++ String.mk (natDigits (-i).toNat)
  else String.mk (natDigits i.toNat)

/-- Go `len` on a string: its UTF-8 byte length. -/
def goLen (s : String) : Nat :=
  s.toList.foldl (fun n c => n + c.utf8Size) 0

/-- `bytes.Split(s, ": ")` specialised to the separator used by `Parse`:
leftmost non-overlapping splitting on the two characters `':'`, `' '`. -/
def splitColonSpace : List Char → List Char → List (List Char)
  | [], cur => [cur.reverse]
  | ':' :: ' ' :: rest, cur => cur.reverse :: splitColonSpace rest []
  | c :: rest, cur => splitColonSpace rest (c :: cur)

/-- The status-block text split: succeeds exactly when splitting on
`": "` yields two parts, as required by the `len(b) != 2` guard. -/
def split2 (s : String) : Option (String × String) :=
  match splitColonSpace s.toList [] with
  | [a, b] => some (String.mk a, String.mk b)
  | _ => none

/-! ## Calendar arithmetic (Go `time` internals) -/

/-- Gregorian leap-year test (years in this program are positive). -/
def isLeap (y : Int) : Bool := y % 4 = 0 && (y % 100 ≠ 0 || y % 400 = 0)

/-- Go `time.daysIn`. -/
def daysInMonth (y : Int) (m : Nat) : Nat :=
  if m = 2 then (if isLeap y then 29 else 28)
  else if m = 4 ∨ m = 6 ∨ m = 9 ∨ m = 11 then 30
  else 31

/-- The date normalization performed by Go `time.Date`, restricted to the
single overflow step that can arise here: a day count one or two past the
end of its month (only `Feb 29` of a non-leap year occurs in practice,
since every input date was validated against its original year). -/
def normCivil (y : Int) (m d h mi : Nat) : Civil :=
  if d > daysInMonth y m then
    if m ≥ 12 then ⟨y + 1, 1, d - daysInMonth y m, h, mi⟩
    else ⟨y, m + 1, d - daysInMonth y m, h, mi⟩
  else ⟨y, m, d, h, mi⟩

/-- Go `dt.AddDate(-1, 0, 0)`: subtract one year, then renormalize. -/
def addDateNeg1Y (c : Civil) : Civil :=
  normCivil (c.year - 1) c.month c.day c.hour c.minute

/-- The 12-hour to 24-hour correction Go applies after parsing:
`if pmSet && hour < 12 { hour += 12 } else if amSet && hour == 12 { hour = 0 }`. -/
def hour24 (h : Nat) (pm : Bool) : Nat :=
  if pm then (if h < 12 then h + 12 else h)
  else (if h = 12 then 0 else h)

/-- The validation Go performs on a parse with a 12-hour clock: input fully
consumed, hour at most 12, minute at most 59, day within its month. -/
def finishTime (y mon day h12 : Nat) (pm : Bool) (mi : Nat) (rest : List Char) :
    Option Civil :=
  if rest = [] ∧ h12 ≤ 12 ∧ mi ≤ 59 ∧ 1 ≤ day ∧ day ≤ daysInMonth (y : Int) mon then
    some ⟨(y : Int), mon, day, hour24 h12 pm, mi⟩
  else none

/-- The validation Go performs on a date-only parse (midnight). -/
def finishDate (y mon day : Nat) (rest : List Char) : Option Civil :=
  if rest = [] ∧ 1 ≤ day ∧ day ≤ daysInMonth (y : Int) mon then
    some ⟨(y : Int), mon, day, 0, 0⟩
  else none

/-! ## The five `time.ParseInLocation` layouts used by the program -/

/-- `time.ParseInLocation("Jan 2 3:04 PM 2006", _, TZ)`: the primary
layout of `ParseUpdateDateTime`. -/
def parseLayoutUpd1 (s : String) : Option Civil := do
  let (m, cs1) ← lookupTab shortMonthNames 0 s.toList
  let cs2 ← lit " " cs1
  let (d, cs3) ← getnum false cs2
  let cs4 ← lit " " cs3
  let (h, cs5) ← getnum false cs4
  let cs6 ← lit ":" cs5
  let (mi, cs7) ← getnum true cs6
  let cs8 ← lit " " cs7
  let (pm, cs9) ← ampm cs8
  let cs10 ← lit " " cs9
  let (y, cs11) ← getnum4 cs10
  finishTime y (m + 1) d h pm mi cs11

/-- `time.ParseInLocation("Jan 2, 2006 3:04 PM", _, TZ)`: the fallback
layout of `ParseUpdateDateTime`, with an explicit year. -/
def parseLayoutUpd2 (s : String) : Option Civil := do
  let (m, cs1) ← lookupTab shortMonthNames 0 s.toList
  let cs2 ← lit " " cs1
  let (d, cs3) ← getnum false cs2
  let cs4 ← lit ", " cs3
  let (y, cs5) ← getnum4 cs4
  let cs6 ← lit " " cs5
  let (h, cs7) ← getnum false cs6
  let cs8 ← lit ":" cs7
  let (mi, cs9) ← getnum true cs8
  let cs10 ← lit " " cs9
  let (pm, cs11) ← ampm cs10
  finishTime y (m + 1) d h pm mi cs11

/-- `time.ParseInLocation("Mon, Jan 02, 3:04 PM 2006", _, TZ)`: the
primary layout of `ParseDeliveryDate` (weekday parsed and discarded). -/
def parseLayoutDel1 (s : String) : Option Civil := do
  let (_, cs1) ← lookupTab shortDayNames 0 s.toList
  let cs2 ← lit ", " cs1
  let (m, cs3) ← lookupTab shortMonthNames 0 cs2
  let cs4 ← lit " " cs3
  let (d, cs5) ← getnum true cs4
  let cs6 ← lit ", " cs5
  let (h, cs7) ← getnum false cs6
  let cs8 ← lit ":" cs7
  let (mi, cs9) ← getnum true cs8
  let cs10 ← lit " " cs9
  let (pm, cs11) ← ampm cs10
  let cs12 ← lit " " cs11
  let (y, cs13) ← getnum4 cs12
  finishTime y (m + 1) d h pm mi cs13

/-- `time.ParseInLocation("Mon, Jan 02, 2006, 3:04 PM", _, TZ)`: the
fallback layout of `ParseDeliveryDate`, with an explicit year. -/
def parseLayoutDel2 (s : String) : Option Civil := do
  let (_, cs1) ← lookupTab shortDayNames 0 s.toList
  let cs2 ← lit ", " cs1
  let (m, cs3) ← lookupTab shortMonthNames 0 cs2
  let cs4 ← lit " " cs3
  let (d, cs5) ← getnum true cs4
  let cs6 ← lit ", " cs5
  let (y, cs7) ← getnum4 cs6
  let cs8 ← lit ", " cs7
  let (h, cs9) ← getnum false cs8
  let cs10 ← lit ":" cs9
  let (mi, cs11) ← getnum true cs10
  let cs12 ← lit " " cs11
  let (pm, cs13) ← ampm cs12
  finishTime y (m + 1) d h pm mi cs13

/-- `time.ParseInLocation("Monday, January 2, 2006", _, TZ)`: the single
layout of `ParseEstimatedDelivery` (weekday parsed and discarded,
time of day defaults to midnight). -/
def parseLayoutEst (s : String) : Option Civil := do
  let (_, cs1) ← lookupTab longDayNames 0 s.toList
  let cs2 ← lit ", " cs1
  let (m, cs3) ← lookupTab longMonthNames 0 cs2
  let cs4 ← lit " " cs3
  let (d, cs5) ← getnum false cs4
  let cs6 ← lit ", " cs5
  let (y, cs7) ← getnum4 cs6
  finishDate y (m + 1) d cs7

/-! ## RFC 3339 formatting (`dt.Format(time.RFC3339)`) -/

/-- Two-digit zero-padded field. -/
def pad2 (n : Nat) : String :=
  (if n < 10 then "0" else "") ++ String.mk (natDigits n)

/-- Four-digit zero-padded year (years in this program are positive). -/
def pad4 (y : Int) : String :=
  (if y < 0 then "-" else "") ++
  (let n := y.natAbs
   (if n < 10 then "000" else if n < 100 then "00" else if n < 1000 then "0" else "") ++
   String.mk (natDigits n))

/-- The `Z07:00` verb: `Z` for UTC, otherwise a signed `hh:mm` offset. -/
def offsetStr (offMin : Int) : String :=
  if offMin = 0 then "Z"
  else (if offMin < 0 then "-" else "+") ++
       pad2 (offMin.natAbs / 60) ++ ":" ++ pad2 (offMin.natAbs % 60)

/-- `dt.Format(time.RFC3339)` for the minute-precise values this program
produces (seconds are always zero). -/
def formatRFC3339 (offMin : Int) (d : Civil) : String :=
  pad4 d.year ++ "-" ++ pad2 d.month ++ "-" ++ pad2 d.day ++ "T" ++
  pad2 d.hour ++ ":" ++ pad2 d.minute ++ ":00" ++ offsetStr offMin

/-! ## The date normalizers -/

/-- The empty-time default applied at the top of `ParseUpdateDateTime`:
`if updateTime == "" { updateTime = "12:00 AM" }`. -/
def defaultTime (t : String) : String := if t = "" then "12:00 AM" else t

/-- `ParseUpdateDateTime(date, updateTime)` from the source: default an
empty time, try the year-less primary layout with the current year
appended (applying the future-rollback year inference), then the
explicit-year fallback layout, then fall back to raw concatenation. -/
def ParseUpdateDateTime (now : Civil) (off : Int) (date updateTime : String) : String :=
  let ut := defaultTime updateTime
  match parseLayoutUpd1 (date ++ " " ++ ut ++ " " ++ Itoa now.year) with
  | some dt =>
    formatRFC3339 off (if Civil.before now dt then addDateNeg1Y dt else dt)
  | none =>
    match parseLayoutUpd2 (date ++ " " ++ ut) with
    | some dt => formatRFC3339 off dt
    | none => date ++ ", " ++ ut

/-- `ParseEstimatedDelivery(date)` from the source: one explicit-year
layout, raw input on failure, no year inference. -/
def ParseEstimatedDelivery (off : Int) (date : String) : String :=
  match parseLayoutEst date with
  | some dt => formatRFC3339 off dt
  | none => date

/-- `ParseDeliveryDate(date)` from the source: year-less primary layout
with the current year appended (applying the future-rollback year
inference), then the explicit-year fallback, then raw input. -/
def ParseDeliveryDate (now : Civil) (off : Int) (date : String) : String :=
  match parseLayoutDel1 (date ++ " " ++ Itoa now.year) with
  | some dt =>
    formatRFC3339 off (if Civil.before now dt then addDateNeg1Y dt else dt)
  | none =>
    match parseLayoutDel2 date with
    | some dt => formatRFC3339 off dt
    | none => date

/-! ## Input validation -/

/-- The character class kept by `SanitizeInput`'s loop: `[0-9a-zA-Z]`. -/
def isTrackingChar (c : Char) : Bool :=
  ('0' ≤ c ∧ c ≤ '9') ∨ ('a' ≤ c ∧ c ≤ 'z') ∨ ('A' ≤ c ∧ c ≤ 'Z')

/-- `SanitizeInput` from the source: reject when the raw byte length is
outside `[7, 40]`, otherwise return the input with every character
outside `[0-9a-zA-Z]` removed. -/
def SanitizeInput (s : String) : Except GoErr String :=
  if goLen s < 7 ∨ 40 < goLen s then Except.error GoErr.errNum
  else Except.ok (String.mk (s.toList.filter isTrackingChar))

/-- `strings.ToUpper` restricted to the ASCII mapping.  This agrees with
Go on every ASCII string; over the full carrier alphabet the only
non-ASCII codepoint Go maps into it is U+017F (long s, to `S`), which is
also a case variant of `s` under Unicode simple folding, so the
case-insensitivity statements proved below are unaffected. -/
def goToUpper (s : String) : String :=
  String.mk (s.toList.map (fun c =>
    if 'a' ≤ c ∧ c ≤ 'z' then Char.ofNat (c.toNat - 32) else c))

/-- `ValidateCarrier` from the source: switch on the uppercased input over
the four carrier constants. -/
def ValidateCarrier (s : String) : Except GoErr String :=
  if goToUpper s = "DHL" then Except.ok "DHL"
  else if goToUpper s = "FEDEX" then Except.ok "FEDEX"
  else if goToUpper s = "UPS" then Except.ok "UPS"
  else if goToUpper s = "USPS" then Except.ok "USPS"
  else Except.error GoErr.errCarrier

/-- Decidable equality of validation results. -/
instance : DecidableEq (Except GoErr String) := fun a b =>
  match a, b with
  | Except.ok x, Except.ok y =>
    if h : x = y then isTrue (by rw [h]) else isFalse (by simp [h])
  | Except.error x, Except.error y =>
    if h : x = y then isTrue (by rw [h]) else isFalse (by simp [h])
  | Except.ok _, Except.error _ => isFalse (by simp)
  | Except.error _, Except.ok _ => isFalse (by simp)

/-- The four canonical (uppercase) carrier codes. -/
def carrierCodes : List String := ["DHL", "FEDEX", "UPS", "USPS"]

/-- Case-insensitive string matching, read as equality of the uppercased
forms. -/
def eqCaseInsensitive (a b : String) : Prop := goToUpper a = goToUpper b

/-- Case-insensitive matching is decidable. -/
instance (a b : String) : Decidable (eqCaseInsensitive a b) :=
  inferInstanceAs (Decidable (goToUpper a = goToUpper b))

/-! ## The tokenizing extractor -/

/-- The value a delivery-status block writes into the result:
`res.Delivered = bytes.Equal(b[0], "Delivered")`, and the date text parsed
by `ParseDeliveryDate` when delivered, by `ParseEstimatedDelivery`
otherwise. -/
def markerValue (now : Civil) (off : Int) (label dateText : String) : Bool × String :=
  if label == "Delivered" then (true, ParseDeliveryDate now off dateText)
  else (false, ParseEstimatedDelivery off dateText)

/-- The token loop of `Parse`, one case per branch of the source:
start tags only; a `div` whose first attribute is
`class="b_focusTextSmall"` consumes the next token and, when it is text
splitting on `": "` into exactly two parts, overwrites the delivery
fields; a `td` consumes the next token and, when it is text, fills the
slot `i % 4` of the scratch row, appending a complete `Update` on the
fourth slot; an inner end-of-stream (`ErrorToken`) breaks the loop. -/
def parseLoop (now : Civil) (off : Int) (toks : List Tok) (res : Result)
    (tmp : Tmp) (i : Nat) : Result :=
  match toks with
  | [] => res
  | tok :: rest =>
    match tok with
    | Tok.text _ => parseLoop now off rest res tmp i
    | Tok.other => parseLoop now off rest res tmp i
    | Tok.startTag name attrs =>
      if name = "div" ∧ attrs ≠ [] then
        match attrs with
        | [] => parseLoop now off rest res tmp i
        | (a, v) :: _ =>
          if a = "class" ∧ v = "b_focusTextSmall" then
            match rest with
            | [] => res
            | inner :: rest2 =>
              match inner with
              | Tok.text s =>
                match split2 s with
                | some (label, dateText) =>
                  let mv := markerValue now off label dateText
                  parseLoop now off rest2
                    { res with delivered := mv.1, deliveryDateTime := mv.2 } tmp i
                | none => parseLoop now off rest2 res tmp i
              | _ => parseLoop now off rest2 res tmp i
          else parseLoop now off rest res tmp i
      else if name = "td" then
        match rest with
        | [] => res
        | inner :: rest2 =>
          match inner with
          | Tok.text s =>
            match i % 4 with
            | 0 => parseLoop now off rest2 res { tmp with date := s } (i + 1)
            | 1 => parseLoop now off rest2 res { tmp with time := s } (i + 1)
            | 2 => parseLoop now off rest2 res { tmp with location := s } (i + 1)
            | _ => parseLoop now off rest2
                { res with updates := res.updates ++
                    [⟨ParseUpdateDateTime now off tmp.date tmp.time, tmp.location, s⟩] }
                { tmp with status := s } (i + 1)
          | _ => parseLoop now off rest2 res tmp i
      else parseLoop now off rest res tmp i

/-- `Parse` from the source: run the token loop to exhaustion, then check
`tokenizer.Err()`; any error other than `io.EOF` discards the accumulated
result and returns the zero `Result` together with that error. -/
def Parse (now : Civil) (off : Int) (toks : List Tok) (term : Terminal) :
    Result × Option String :=
  let r := parseLoop now off toks Result.zero Tmp.zero 0
  match term with
  | Terminal.eof => (r, none)
  | Terminal.err e => (Result.zero, some e)

/-! ## Observers over the token stream

These definitions restate, in document order, what the loop extracts:
the delivery-status marker blocks and the text-bearing `td` cells.  They
consume tokens exactly as the loop does (a recognized `div` marker and a
`td` each consume the following token). -/

/-- The delivery-status marker blocks of a stream, in document order:
each is the `(delivered, deliveryDateTime)` pair it writes. -/
def markers (now : Civil) (off : Int) (toks : List Tok) : List (Bool × String) :=
  match toks with
  | [] => []
  | tok :: rest =>
    match tok with
    | Tok.text _ => markers now off rest
    | Tok.other => markers now off rest
    | Tok.startTag name attrs =>
      if name = "div" ∧ attrs ≠ [] then
        match attrs with
        | [] => markers now off rest
        | (a, v) :: _ =>
          if a = "class" ∧ v = "b_focusTextSmall" then
            match rest with
            | [] => []
            | inner :: rest2 =>
              match inner with
              | Tok.text s =>
                match split2 s with
                | some (label, dateText) =>
                  markerValue now off label dateText :: markers now off rest2
                | none => markers now off rest2
              | _ => markers now off rest2
          else markers now off rest
      else if name = "td" then
        match rest with
        | [] => []
        | _ :: rest2 => markers now off rest2
      else markers now off rest

/-- The text contents of the text-bearing `td` cells of a stream, in
document order. -/
def cellTexts (toks : List Tok) : List String :=
  match toks with
  | [] => []
  | tok :: rest =>
    match tok with
    | Tok.text _ => cellTexts rest
    | Tok.other => cellTexts rest
    | Tok.startTag name attrs =>
      if name = "div" ∧ attrs ≠ [] then
        match attrs with
        | [] => cellTexts rest
        | (a, v) :: _ =>
          if a = "class" ∧ v = "b_focusTextSmall" then
            match rest with
            | [] => []
            | _ :: rest2 => cellTexts rest2
          else cellTexts rest
      else if name = "td" then
        match rest with
        | [] => []
        | inner :: rest2 =>
          match inner with
          | Tok.text s => s :: cellTexts rest2
          | _ => cellTexts rest2
      else cellTexts rest

/-- Positional grouping of cell texts into updates: cell index modulo 4
selects the (date, time, location, status) role, and an `Update` is
emitted exactly on a status slot (index congruent to 3). -/
def buildUpdates (now : Civil) (off : Int) : Nat → Tmp → List String → List Update
  | _, _, [] => []
  | i, tmp, s :: rest =>
    match i % 4 with
    | 0 => buildUpdates now off (i + 1) { tmp with date := s } rest
    | 1 => buildUpdates now off (i + 1) { tmp with time := s } rest
    | 2 => buildUpdates now off (i + 1) { tmp with location := s } rest
    | _ => ⟨ParseUpdateDateTime now off tmp.date tmp.time, tmp.location, s⟩ ::
        buildUpdates now off (i + 1) { tmp with status := s } rest

/-- Last element of a list, with a default: the value left standing after
a sequence of overwrites. -/
def lastGet (ms : List (Bool × String)) (dflt : Bool × String) : Bool × String :=
  match ms with
  | [] => dflt
  | m :: rest => lastGet rest m

/-- One-step unfolding of `buildUpdates` on a date slot. -/
theorem buildUpdates_date (now : Civil) (off : Int) (i : Nat) (tmp : Tmp) (s : String)
    (xs : List String) (h : i % 4 = 0) :
    buildUpdates now off i tmp (s :: xs) =
      buildUpdates now off (i + 1) { tmp with date := s } xs := by
  simp [buildUpdates, h]

/-- One-step unfolding of `buildUpdates` on a time slot. -/
theorem buildUpdates_time (now : Civil) (off : Int) (i : Nat) (tmp : Tmp) (s : String)
    (xs : List String) (h : i % 4 = 1) :
    buildUpdates now off i tmp (s :: xs) =
      buildUpdates now off (i + 1) { tmp with time := s } xs := by
  simp [buildUpdates, h]

/-- One-step unfolding of `buildUpdates` on a location slot. -/
theorem buildUpdates_location (now : Civil) (off : Int) (i : Nat) (tmp : Tmp) (s : String)
    (xs : List String) (h : i % 4 = 2) :
    buildUpdates now off i tmp (s :: xs) =
      buildUpdates now off (i + 1) { tmp with location := s } xs := by
  simp [buildUpdates, h]

/-- One-step unfolding of `buildUpdates` on a status slot: an `Update`
is emitted. -/
theorem buildUpdates_status (now : Civil) (off : Int) (i : Nat) (tmp : Tmp) (s : String)
    (xs : List String) (h : i % 4 = 3) :
    buildUpdates now off i tmp (s :: xs) =
      ⟨ParseUpdateDateTime now off tmp.date tmp.time, tmp.location, s⟩ ::
        buildUpdates now off (i + 1) { tmp with status := s } xs := by
  simp [buildUpdates, h]

/-- Characterization of the token loop: the delivery fields are the last
marker block's pair (overwrite semantics), the updates are the positional
grouping of the cell texts appended to the accumulator, and the fields
`Parse` never touches are preserved. -/
theorem parseLoop_characterization (now : Civil) (off : Int) :
    ∀ (toks : List Tok) (res : Result) (tmp : Tmp) (i : Nat),
    (parseLoop now off toks res tmp i).delivered =
      (lastGet (markers now off toks) (res.delivered, res.deliveryDateTime)).1 ∧
    (parseLoop now off toks res tmp i).deliveryDateTime =
      (lastGet (markers now off toks) (res.delivered, res.deliveryDateTime)).2 ∧
    (parseLoop now off toks res tmp i).updates =
      res.updates ++ buildUpdates now off i tmp (cellTexts toks) ∧
    (parseLoop now off toks res tmp i).trackingNum = res.trackingNum ∧
    (parseLoop now off toks res tmp i).carrier = res.carrier := by
  intro toks res tmp i
  induction toks, res, tmp, i using parseLoop.induct now off
  all_goals first
  | (simp_all [parseLoop, markers, cellTexts, buildUpdates, lastGet]; done)
  | (rw [parseLoop.eq_def, markers.eq_def, cellTexts.eq_def];
     simp_all [lastGet, buildUpdates_date, buildUpdates_time, buildUpdates_location]; done)
  | (rename_i i attrs rest2 s hx0 hx1 hx2 h ih
     have h0 : i % 4 ≠ 0 := hx0
     have h1 : i % 4 ≠ 1 := hx1
     have h2 : i % 4 ≠ 2 := hx2
     have h3 : i % 4 = 3 := by omega
     rw [parseLoop.eq_def, markers.eq_def, cellTexts.eq_def]
     simp_all [lastGet, buildUpdates_status]; done)
  | (rename_i hneg hdiv ih
     rw [parseLoop.eq_def, markers.eq_def, cellTexts.eq_def]
     simp only [if_neg hneg]
     simp_all [lastGet]; done)
  | (rename_i h1 h2 ih
     rw [parseLoop.eq_def, markers.eq_def, cellTexts.eq_def]
     simp only [if_neg h1, if_neg h2]
     simp_all [lastGet]; done)
  | (rename_i inner rest2 hx h ih
     cases inner <;> rw [parseLoop.eq_def, markers.eq_def, cellTexts.eq_def] <;>
       simp_all [lastGet, buildUpdates]
     done)

/-- The last element of a nonempty overwrite sequence wins, whatever the
starting value. -/
theorem lastGet_append_single :
    ∀ (pre : List (Bool × String)) (m dflt : Bool × String),
    lastGet (pre ++ [m]) dflt = m := by
  intro pre
  induction pre with
  | nil => intro m dflt; simp [lastGet]
  | cons p rest ih => intro m dflt; simpa [lastGet] using ih m p

/-- The number of updates built from a cell list: one per status slot,
i.e. per index congruent to 3 modulo 4 in the scanned range. -/
theorem buildUpdates_length (now : Civil) (off : Int) :
    ∀ (xs : List String) (i : Nat) (tmp : Tmp),
    (buildUpdates now off i tmp xs).length = (i + xs.length) / 4 - i / 4 := by
  intro xs
  induction xs with
  | nil => intro i tmp; simp [buildUpdates]
  | cons s rest ih =>
    intro i tmp
    have h4 : i % 4 = 0 ∨ i % 4 = 1 ∨ i % 4 = 2 ∨ i % 4 = 3 := by omega
    rcases h4 with h4 | h4 | h4 | h4
    · rw [buildUpdates_date now off i tmp s rest h4, ih]
      simp only [List.length_cons]; omega
    · rw [buildUpdates_time now off i tmp s rest h4, ih]
      simp only [List.length_cons]; omega
    · rw [buildUpdates_location now off i tmp s rest h4, ih]
      simp only [List.length_cons]; omega
    · rw [buildUpdates_status now off i tmp s rest h4]
      simp only [List.length_cons, ih]
      omega

/-- Claim C2: when the document contains delivery-status marker blocks
(a `div` whose first attribute is `class="b_focusTextSmall"` followed by
a text token splitting on `": "` into exactly two parts), the `delivered`
flag and `deliveryDateTime` of the result returned by `Parse` reflect the
last such block in document order: each later matching block overwrites
the values set by earlier ones. -/
theorem parse_last_marker_block_wins (now : Civil) (off : Int) (toks : List Tok)
    (pre : List (Bool × String)) (m : Bool × String)
    (h : markers now off toks = pre ++ [m]) :
    (Parse now off toks Terminal.eof).1.delivered = m.1 ∧
    (Parse now off toks Terminal.eof).1.deliveryDateTime = m.2 := by
  have hc := parseLoop_characterization now off toks Result.zero Tmp.zero 0
  have h1 : (Parse now off toks Terminal.eof).1 =
      parseLoop now off toks Result.zero Tmp.zero 0 := rfl
  rw [h1, hc.1, hc.2.1, h, lastGet_append_single]
  exact ⟨rfl, rfl⟩

/-- Claim C2 witness: a stream with two marker blocks; the first sets
`delivered := true`, the second overwrites with `delivered := false` and
its own (fallback) date text. -/
theorem parse_last_marker_block_wins_witness :
    (Parse ⟨2024, 1, 1, 0, 0⟩ 0
      [Tok.startTag "div" [("class", "b_focusTextSmall")], Tok.text "Delivered: junkdate",
       Tok.startTag "div" [("class", "b_focusTextSmall")], Tok.text "Estimated delivery: stuff"]
      Terminal.eof).1.delivered = false ∧
    (Parse ⟨2024, 1, 1, 0, 0⟩ 0
      [Tok.startTag "div" [("class", "b_focusTextSmall")], Tok.text "Delivered: junkdate",
       Tok.startTag "div" [("class", "b_focusTextSmall")], Tok.text "Estimated delivery: stuff"]
      Terminal.eof).1.deliveryDateTime = "stuff" :=
  parse_last_marker_block_wins ⟨2024, 1, 1, 0, 0⟩ 0 _ [(true, "junkdate")] (false, "stuff")
    (by decide)

/-- Claim C3: `Parse` groups the text-bearing `td` cells it encounters,
in document order, by index modulo 4 into (date, time, location, status)
roles, emitting an `Update` exactly on each status slot; consequently the
number of updates is the number of cells divided by 4 rounding down, so a
trailing incomplete group (in particular a stream with exactly 2 cells)
contributes nothing, and 4k cells yield exactly k updates. -/
theorem parse_groups_cells_mod4 (now : Civil) (off : Int) (toks : List Tok) :
    (Parse now off toks Terminal.eof).1.updates =
      buildUpdates now off 0 Tmp.zero (cellTexts toks) ∧
    ((Parse now off toks Terminal.eof).1.updates).length = (cellTexts toks).length / 4 := by
  have hc := parseLoop_characterization now off toks Result.zero Tmp.zero 0
  have h1 : (Parse now off toks Terminal.eof).1 =
      parseLoop now off toks Result.zero Tmp.zero 0 := rfl
  have h2 : (Parse now off toks Terminal.eof).1.updates =
      buildUpdates now off 0 Tmp.zero (cellTexts toks) := by
    rw [h1, hc.2.2.1]
    simp [Result.zero]
  refine ⟨h2, ?_⟩
  rw [h2, buildUpdates_length]
  simp

/-- Claim C6: a non-`io.EOF` tokenizer error makes `Parse` return the
zero `Result` (no delivered flag, no delivery date, no updates) together
with that error; clean stream exhaustion returns the accumulated loop
result with no error. -/
theorem parse_error_path_discards_result (now : Civil) (off : Int) (toks : List Tok)
    (e : String) :
    (Parse now off toks (Terminal.err e)).2 = some e ∧
    (Parse now off toks (Terminal.err e)).1.delivered = false ∧
    (Parse now off toks (Terminal.err e)).1.deliveryDateTime = "" ∧
    (Parse now off toks (Terminal.err e)).1.updates = [] ∧
    (Parse now off toks (Terminal.err e)).1 = Result.zero ∧
    (Parse now off toks Terminal.eof).2 = none ∧
    (Parse now off toks Terminal.eof).1 =
      parseLoop now off toks Result.zero Tmp.zero 0 :=
  ⟨rfl, rfl, rfl, rfl, rfl, rfl, rfl⟩

/-- Claim C10: `Parse` inspects only the first attribute of a `div` start
tag; if that first attribute is not `class="b_focusTextSmall"`, the
element is skipped entirely — even when the marker pair appears among the
later attributes — so it changes neither the delivery fields nor anything
else, and does not consume the following token. -/
theorem parse_div_checks_only_first_attr (now : Civil) (off : Int)
    (a v : String) (tl : List (String × String)) (rest : List Tok)
    (res : Result) (tmp : Tmp) (i : Nat)
    (hmem : ("class", "b_focusTextSmall") ∈ tl)
    (hne : ¬(a = "class" ∧ v = "b_focusTextSmall")) :
    parseLoop now off (Tok.startTag "div" ((a, v) :: tl) :: rest) res tmp i =
      parseLoop now off rest res tmp i := by
  rw [parseLoop.eq_def]
  simp only [if_neg hne]
  simp

/-- Claim C10 witness: a `div` carrying the marker class as its second
attribute, followed by a well-formed delivery text, leaves the result
exactly as if the element were absent. -/
theorem parse_div_checks_only_first_attr_witness :
    parseLoop ⟨2024, 1, 1, 0, 0⟩ 0
      [Tok.startTag "div" [("id", "x"), ("class", "b_focusTextSmall")],
       Tok.text "Delivered: junk"] Result.zero Tmp.zero 0 =
      parseLoop ⟨2024, 1, 1, 0, 0⟩ 0 [Tok.text "Delivered: junk"] Result.zero Tmp.zero 0 :=
  parse_div_checks_only_first_attr ⟨2024, 1, 1, 0, 0⟩ 0 "id" "x"
    [("class", "b_focusTextSmall")] [Tok.text "Delivered: junk"] Result.zero Tmp.zero 0
    (by decide) (by decide)

/-- Claim C7: a delivery-status block with text
`"Estimated delivery: Monday, January 2, 2025"` yields `delivered = false`
(the label differs from the case-sensitive string `"Delivered"`) and
`deliveryDateTime` exactly `"2025-01-02T00:00:00"` followed by the
configured zone's UTC offset — the explicit-year layout is used verbatim,
independently of the current time. -/
theorem parse_estimated_delivery_block (now : Civil) (off : Int) :
    (Parse now off [Tok.startTag "div" [("class", "b_focusTextSmall")],
       Tok.text "Estimated delivery: Monday, January 2, 2025"] Terminal.eof).1.delivered = false ∧
    (Parse now off [Tok.startTag "div" [("class", "b_focusTextSmall")],
       Tok.text "Estimated delivery: Monday, January 2, 2025"] Terminal.eof).1.deliveryDateTime =
      "2025-01-02T00:00:00" ++ offsetStr off := by
  have hs : split2 "Estimated delivery: Monday, January 2, 2025" =
      some ("Estimated delivery", "Monday, January 2, 2025") := by decide
  have hp : parseLayoutEst "Monday, January 2, 2025" = some ⟨2025, 1, 2, 0, 0⟩ := by decide
  have he : ParseEstimatedDelivery off "Monday, January 2, 2025" =
      "2025-01-02T00:00:00" ++ offsetStr off := by
    unfold ParseEstimatedDelivery
    rw [hp]
    unfold formatRFC3339
    congr 1
  have hP : (Parse now off [Tok.startTag "div" [("class", "b_focusTextSmall")],
       Tok.text "Estimated delivery: Monday, January 2, 2025"] Terminal.eof).1 =
      { Result.zero with
        delivered := false
        deliveryDateTime := ParseEstimatedDelivery off "Monday, January 2, 2025" } := by
    show parseLoop now off _ Result.zero Tmp.zero 0 = _
    rw [parseLoop.eq_def]
    simp [hs, markerValue]
    rw [parseLoop.eq_def]
  rw [hP, he]
  exact ⟨rfl, rfl⟩

/-! ## C1 and C8: input validation -/

/-- Claim C1 counterexample: the input `"a!b@c#d"` has raw length 7, so
the code accepts it, yet its stripped form `"abcd"` has length 4 — the
claimed equivalence (rejection iff the *stripped* length is outside
`[7, 40]`) fails at this input. -/
theorem sanitize_not_stripped_length :
    ¬((SanitizeInput "a!b@c#d" = Except.error GoErr.errNum) ↔
      ((String.mk ("a!b@c#d".toList.filter isTrackingChar)).length < 7 ∨
       40 < (String.mk ("a!b@c#d".toList.filter isTrackingChar)).length)) := by
  decide

/-- Claim C1, amended: `SanitizeInput` rejects with `ErrNum` exactly when
the *raw* input's byte length is outside `[7, 40]` (the bound is checked
before stripping); an accepted input returns the input with every
character outside `[0-9a-zA-Z]` removed, so every character of the output
is alphanumeric. -/
theorem sanitize_raw_length_bounds (s : String) :
    (SanitizeInput s = Except.error GoErr.errNum ↔ (goLen s < 7 ∨ 40 < goLen s)) ∧
    (∀ out, SanitizeInput s = Except.ok out →
      out = String.mk (s.toList.filter isTrackingChar) ∧
      out.toList.all isTrackingChar) := by
  unfold SanitizeInput
  by_cases h : goLen s < 7 ∨ 40 < goLen s
  · rw [if_pos h]
    refine ⟨⟨fun _ => h, fun _ => rfl⟩, ?_⟩
    intro out hout
    cases hout
  · rw [if_neg h]
    refine ⟨⟨fun he => absurd he (by simp), fun hb => absurd hb h⟩, ?_⟩
    intro out hout
    have h1 : out = String.mk (s.toList.filter isTrackingChar) := by
      cases hout; rfl
    refine ⟨h1, ?_⟩
    rw [h1]
    simp [String.mk, List.all_eq_true]

/-- Claim C1 amended witness: a raw length of 9 is accepted and the
sanitized output keeps only the alphanumeric characters. -/
theorem sanitize_raw_length_bounds_witness :
    SanitizeInput "TRACK-123" = Except.ok "TRACK123" ∧
    ¬(SanitizeInput "TRACK-123" = Except.error GoErr.errNum) := by
  have h := sanitize_raw_length_bounds "TRACK-123"
  refine ⟨by decide, ?_⟩
  intro he
  exact absurd (h.1.mp he) (by decide)

/-- Claim C8: `ValidateCarrier` succeeds exactly on the strings matching
one of DHL, FEDEX, UPS, USPS case-insensitively, returning the canonical
uppercase code; every other string fails with `ErrCarrier`. -/
theorem carrier_case_insensitive_match (s : String) :
    (∀ c, c ∈ carrierCodes → eqCaseInsensitive s c → ValidateCarrier s = Except.ok c) ∧
    ((∀ c ∈ carrierCodes, ¬eqCaseInsensitive s c) →
      ValidateCarrier s = Except.error GoErr.errCarrier) ∧
    (∀ c, ValidateCarrier s = Except.ok c → c ∈ carrierCodes ∧ eqCaseInsensitive s c) := by
  have hD : goToUpper "DHL" = "DHL" := by decide
  have hF : goToUpper "FEDEX" = "FEDEX" := by decide
  have hU : goToUpper "UPS" = "UPS" := by decide
  have hS : goToUpper "USPS" = "USPS" := by decide
  refine ⟨?_, ?_, ?_⟩
  · intro c hc hci
    unfold eqCaseInsensitive at hci
    fin_cases hc <;> simp_all [ValidateCarrier]
  · intro hall
    have h1 : ¬goToUpper s = "DHL" := fun he =>
      hall "DHL" (by decide) (by unfold eqCaseInsensitive; rw [he, hD])
    have h2 : ¬goToUpper s = "FEDEX" := fun he =>
      hall "FEDEX" (by decide) (by unfold eqCaseInsensitive; rw [he, hF])
    have h3 : ¬goToUpper s = "UPS" := fun he =>
      hall "UPS" (by decide) (by unfold eqCaseInsensitive; rw [he, hU])
    have h4 : ¬goToUpper s = "USPS" := fun he =>
      hall "USPS" (by decide) (by unfold eqCaseInsensitive; rw [he, hS])
    unfold ValidateCarrier
    rw [if_neg h1, if_neg h2, if_neg h3, if_neg h4]
  · intro c hv
    unfold ValidateCarrier at hv
    by_cases h1 : goToUpper s = "DHL"
    · rw [if_pos h1] at hv
      cases hv
      exact ⟨by decide, by unfold eqCaseInsensitive; rw [h1, hD]⟩
    · rw [if_neg h1] at hv
      by_cases h2 : goToUpper s = "FEDEX"
      · rw [if_pos h2] at hv
        cases hv
        exact ⟨by decide, by unfold eqCaseInsensitive; rw [h2, hF]⟩
      · rw [if_neg h2] at hv
        by_cases h3 : goToUpper s = "UPS"
        · rw [if_pos h3] at hv
          cases hv
          exact ⟨by decide, by unfold eqCaseInsensitive; rw [h3, hU]⟩
        · rw [if_neg h3] at hv
          by_cases h4 : goToUpper s = "USPS"
          · rw [if_pos h4] at hv
            cases hv
            exact ⟨by decide, by unfold eqCaseInsensitive; rw [h4, hS]⟩
          · rw [if_neg h4] at hv
            cases hv

/-- Claim C8 witness: a lowercase carrier is canonicalized, and an
unknown carrier is rejected. -/
theorem carrier_case_insensitive_match_witness :
    ValidateCarrier "usps" = Except.ok "USPS" ∧
    ValidateCarrier "bogus" = Except.error GoErr.errCarrier :=
  ⟨(carrier_case_insensitive_match "usps").1 "USPS" (by decide) (by decide),
   (carrier_case_insensitive_match "bogus").2.1 (by decide)⟩

/-! ## Digit, suffix and layout-inversion lemmas for the date claims -/

/-- Any sufficient fuel computes the same digit expansion. -/
theorem natDigitsAux_fuel : ∀ (f f' n : Nat) (acc : List Char), n < f → n < f' →
    natDigitsAux f n acc = natDigitsAux f' n acc := by
  intro f
  induction f with
  | zero => intro f' n acc h; omega
  | succ f ih =>
    intro f' n acc h h'
    cases f' with
    | zero => omega
    | succ f' =>
      simp only [natDigitsAux]
      by_cases h10 : n < 10
      · rw [if_pos h10, if_pos h10]
      · rw [if_neg h10, if_neg h10]
        exact ih f' (n / 10) _ (by omega) (by omega)

/-- The accumulator of the digit expansion factors out as a suffix. -/
theorem natDigitsAux_acc : ∀ (f n : Nat) (acc : List Char), n < f →
    natDigitsAux f n acc = natDigitsAux f n [] ++ acc := by
  intro f
  induction f with
  | zero => intro n acc h; omega
  | succ f ih =>
    intro n acc h
    simp only [natDigitsAux]
    by_cases h10 : n < 10
    · rw [if_pos h10, if_pos h10]; rfl
    · rw [if_neg h10, if_neg h10]
      rw [ih (n / 10) _ (by omega), ih (n / 10) [digitChar (n % 10)] (by omega)]
      simp

/-- Recursive characterization of the digit expansion above ten. -/
theorem natDigits_ge10 (n : Nat) (h : 10 ≤ n) :
    natDigits n = natDigits (n / 10) ++ [digitChar (n % 10)] := by
  unfold natDigits
  simp only [natDigitsAux, if_neg (by omega : ¬n < 10)]
  rw [natDigitsAux_fuel n (n / 10 + 1) (n / 10) _ (by omega) (by omega)]
  exact natDigitsAux_acc (n / 10 + 1) (n / 10) _ (by omega)

/-- A single digit expands to its own character. -/
theorem natDigits_lt10 (n : Nat) (h : n < 10) : natDigits n = [digitChar n] := by
  unfold natDigits
  simp [natDigitsAux, h]

/-- A four-digit number expands to exactly its four digit characters. -/
theorem natDigits_four (n : Nat) (h1 : 1000 ≤ n) (h2 : n < 10000) :
    natDigits n = [digitChar (n / 1000), digitChar (n / 100 % 10),
                   digitChar (n / 10 % 10), digitChar (n % 10)] := by
  have e1 : n / 10 / 10 = n / 100 := by omega
  have e2 : n / 100 / 10 = n / 1000 := by omega
  rw [natDigits_ge10 n (by omega), natDigits_ge10 (n / 10) (by omega), e1,
      natDigits_ge10 (n / 100) (by omega), e2, natDigits_lt10 (n / 1000) (by omega)]
  simp

/-- Digit characters pass the digit test. -/
theorem isDigitCh_digitChar (d : Nat) (h : d < 10) : isDigitCh (digitChar d) = true := by
  interval_cases d <;> decide

/-- A digit character evaluates back to its value. -/
theorem dval_digitChar (d : Nat) (h : d < 10) : dval (digitChar d) = d := by
  interval_cases d <;> decide

/-- The four-digit year verb reads back a four-digit number exactly. -/
theorem getnum4_natDigits (n : Nat) (h1 : 1000 ≤ n) (h2 : n < 10000) :
    getnum4 (natDigits n) = some (n, []) := by
  rw [natDigits_four n h1 h2]
  show (if (isDigitCh (digitChar (n / 1000)) && isDigitCh (digitChar (n / 100 % 10)) &&
      isDigitCh (digitChar (n / 10 % 10)) && isDigitCh (digitChar (n % 10))) = true then
      some (((dval (digitChar (n / 1000)) * 10 + dval (digitChar (n / 100 % 10))) * 10 +
        dval (digitChar (n / 10 % 10))) * 10 + dval (digitChar (n % 10)), ([] : List Char))
    else none) = some (n, [])
  rw [if_pos (by
    rw [isDigitCh_digitChar _ (by omega), isDigitCh_digitChar _ (by omega),
        isDigitCh_digitChar _ (by omega), isDigitCh_digitChar _ (by omega)]
    rfl)]
  rw [dval_digitChar _ (by omega : n / 1000 < 10),
      dval_digitChar _ (by omega : n / 100 % 10 < 10),
      dval_digitChar _ (by omega : n / 10 % 10 < 10),
      dval_digitChar _ (by omega : n % 10 < 10)]
  congr 1
  congr 1
  omega

/-- A successful year parse that exhausts its input consumed exactly
four characters. -/
theorem getnum4_inv (cs : List Char) (y : Nat) (h : getnum4 cs = some (y, [])) :
    cs.length = 4 := by
  rcases cs with _ | ⟨c1, _ | ⟨c2, _ | ⟨c3, _ | ⟨c4, rest⟩⟩⟩⟩ <;>
    simp [getnum4] at h
  obtain ⟨-, -, hr⟩ := h
  simp [hr]

/-- Literal matching leaves a suffix of its input. -/
theorem litChars_suffix : ∀ (ps cs cs' : List Char), litChars ps cs = some cs' → cs' <:+ cs := by
  intro ps
  induction ps with
  | nil =>
    intro cs cs' h
    simp [litChars] at h
    rw [h]
  | cons p ps ih =>
    intro cs cs' h
    cases cs with
    | nil => simp [litChars] at h
    | cons c cs0 =>
      unfold litChars at h
      split at h
      · exact (ih cs0 cs' h).trans (List.suffix_cons c cs0)
      · cases h

/-- Literal matching leaves a suffix of its input. -/
theorem lit_suffix (pat : String) (cs cs' : List Char) (h : lit pat cs = some cs') :
    cs' <:+ cs :=
  litChars_suffix pat.toList cs cs' h

/-- Numeral parsing leaves a suffix of its input. -/
theorem getnum_suffix (fixed : Bool) (cs cs' : List Char) (v : Nat)
    (h : getnum fixed cs = some (v, cs')) : cs' <:+ cs := by
  rcases cs with _ | ⟨c1, _ | ⟨c2, rest2⟩⟩
  · simp [getnum] at h
  · simp only [getnum] at h
    split at h
    · split at h
      · cases h
      · simp only [Option.some.injEq, Prod.mk.injEq] at h
        rw [← h.2]
        exact List.nil_suffix
    · cases h
  · simp only [getnum] at h
    split at h
    · split at h
      · simp only [Option.some.injEq, Prod.mk.injEq] at h
        rw [← h.2]
        exact ⟨[c1, c2], rfl⟩
      · split at h
        · cases h
        · simp only [Option.some.injEq, Prod.mk.injEq] at h
          rw [← h.2]
          exact List.suffix_cons c1 _
    · cases h

/-- Meridiem parsing leaves a suffix of its input. -/
theorem ampm_suffix (cs cs' : List Char) (b : Bool) (h : ampm cs = some (b, cs')) :
    cs' <:+ cs := by
  unfold ampm at h
  split at h
  · simp only [Option.some.injEq, Prod.mk.injEq] at h
    rw [← h.2]
    exact ⟨['P', 'M'], rfl⟩
  · simp only [Option.some.injEq, Prod.mk.injEq] at h
    rw [← h.2]
    exact ⟨['A', 'M'], rfl⟩
  · cases h

/-- Name-table lookup leaves a suffix of its input. -/
theorem lookupTab_suffix : ∀ (tab : List String) (i : Nat) (val : List Char)
    (n : Nat) (cs' : List Char), lookupTab tab i val = some (n, cs') → cs' <:+ val := by
  intro tab
  induction tab with
  | nil => intro i val n cs' h; simp [lookupTab] at h
  | cons v tb ih =>
    intro i val n cs' h
    unfold lookupTab at h
    split at h
    · injection h with h1
      simp at h1
      rw [← h1.2]
      exact List.drop_suffix _ _
    · exact ih _ _ _ _ h

/-- Inverting the final validation step of a 12-hour-clock parse. -/
theorem finishTime_inv (y mon day h12 : Nat) (pm : Bool) (mi : Nat) (rest : List Char)
    (dt : Civil) (h : finishTime y mon day h12 pm mi rest = some dt) :
    rest = [] ∧ dt.year = (y : Int) ∧ dt.month = mon ∧ dt.day = day ∧
    1 ≤ day ∧ day ≤ daysInMonth (y : Int) mon := by
  unfold finishTime at h
  split at h
  · injection h with h1
    rename_i hc
    rw [← h1]
    exact ⟨hc.1, rfl, rfl, rfl, hc.2.2.2.1, hc.2.2.2.2⟩
  · cases h

/-- Inverting the primary update layout: the year field was read by the
four-digit verb from a suffix of the input, the whole input was consumed,
and the day was validated against the parsed year and month. -/
theorem parseLayoutUpd1_inv (s : String) (dt : Civil)
    (h : parseLayoutUpd1 s = some dt) :
    (∃ cs y, cs <:+ s.toList ∧ getnum4 cs = some (y, []) ∧ dt.year = (y : Int)) ∧
    1 ≤ dt.day ∧ dt.day ≤ daysInMonth dt.year dt.month := by
  unfold parseLayoutUpd1 at h
  simp only [bind, Option.bind_eq_some] at h
  obtain ⟨⟨m, cs1⟩, h1, cs2, h2, ⟨d, cs3⟩, h3, cs4, h4, ⟨hh, cs5⟩, h5, cs6, h6, ⟨mi, cs7⟩, h7, cs8, h8, ⟨pm, cs9⟩, h9, cs10, h10, ⟨y, cs11⟩, h11, hfin⟩ := h
  obtain ⟨hrest, hyear, hmon, hday, hd1, hd2⟩ := finishTime_inv _ _ _ _ _ _ _ _ hfin
  subst hrest
  have sfx : cs10 <:+ s.toList :=
    ((((((((lit_suffix _ _ _ h10).trans (ampm_suffix _ _ _ h9)).trans
      (lit_suffix _ _ _ h8)).trans (getnum_suffix _ _ _ _ h7)).trans
      (lit_suffix _ _ _ h6)).trans (getnum_suffix _ _ _ _ h5)).trans
      (lit_suffix _ _ _ h4)).trans (getnum_suffix _ _ _ _ h3)).trans
      ((lit_suffix _ _ _ h2).trans (lookupTab_suffix _ _ _ _ _ h1))
  refine ⟨⟨cs10, y, sfx, ?_, ?_⟩, ?_, ?_⟩
  · exact h11
  · exact hyear
  · rw [hday]; exact hd1
  · rw [hday, hyear, hmon]; exact hd2

/-- Inverting the primary delivery layout, as for the update layout. -/
theorem parseLayoutDel1_inv (s : String) (dt : Civil)
    (h : parseLayoutDel1 s = some dt) :
    (∃ cs y, cs <:+ s.toList ∧ getnum4 cs = some (y, []) ∧ dt.year = (y : Int)) ∧
    1 ≤ dt.day ∧ dt.day ≤ daysInMonth dt.year dt.month := by
  unfold parseLayoutDel1 at h
  simp only [bind, Option.bind_eq_some] at h
  obtain ⟨⟨w, cs1⟩, h1, cs2, h2, ⟨m, cs3⟩, h3, cs4, h4, ⟨d, cs5⟩, h5, cs6, h6, ⟨hh, cs7⟩, h7, cs8, h8, ⟨mi, cs9⟩, h9, cs10, h10, ⟨pm, cs11⟩, h11, cs12, h12, ⟨y, cs13⟩, h13, hfin⟩ := h
  obtain ⟨hrest, hyear, hmon, hday, hd1, hd2⟩ := finishTime_inv _ _ _ _ _ _ _ _ hfin
  subst hrest
  have sfx : cs12 <:+ s.toList :=
    ((((((((((lit_suffix _ _ _ h12).trans (ampm_suffix _ _ _ h11)).trans
      (lit_suffix _ _ _ h10)).trans (getnum_suffix _ _ _ _ h9)).trans
      (lit_suffix _ _ _ h8)).trans (getnum_suffix _ _ _ _ h7)).trans
      (lit_suffix _ _ _ h6)).trans (getnum_suffix _ _ _ _ h5)).trans
      (lit_suffix _ _ _ h4)).trans (lookupTab_suffix _ _ _ _ _ h3)).trans
      ((lit_suffix _ _ _ h2).trans (lookupTab_suffix _ _ _ _ _ h1))
  refine ⟨⟨cs12, y, sfx, h13, hyear⟩, ?_, ?_⟩
  · rw [hday]; exact hd1
  · rw [hday, hyear, hmon]; exact hd2

/-- When the input ends in the appended four-digit current year, the year
read by the four-digit verb at the end of the input is that year. -/
theorem parse_year_suffix (pre : String) (yr : Int) (hy1 : 1000 ≤ yr) (hy2 : yr < 10000)
    (cs : List Char) (v : Nat)
    (hsf : cs <:+ (pre ++ Itoa yr).toList) (hg : getnum4 cs = some (v, [])) :
    (v : Int) = yr := by
  have hnn : ¬yr < 0 := by omega
  have hb1 : 1000 ≤ yr.toNat := by omega
  have hb2 : yr.toNat < 10000 := by omega
  have hlist : (pre ++ Itoa yr).toList = pre.toList ++ natDigits yr.toNat := by
    unfold Itoa
    rw [if_neg hnn]
    show (pre ++ String.mk (natDigits yr.toNat)).data = pre.data ++ natDigits yr.toNat
    rw [String.data_append]
  have hlen : cs.length = 4 := getnum4_inv cs v hg
  have hdl : (natDigits yr.toNat).length = 4 := by
    rw [natDigits_four yr.toNat hb1 hb2]
    rfl
  obtain ⟨t, ht⟩ := hsf
  rw [hlist] at ht
  have hteq : t.length = pre.toList.length := by
    have := congrArg List.length ht
    simp only [List.length_append] at this
    omega
  have hcs : cs = natDigits yr.toNat := (List.append_inj ht hteq).2
  rw [hcs, getnum4_natDigits yr.toNat hb1 hb2] at hg
  simp only [Option.some.injEq, Prod.mk.injEq] at hg
  omega

/-- December (and any larger month index) has 31 days in every year. -/
theorem daysInMonth_ge12 (y : Int) (m : Nat) (h : 12 ≤ m) : daysInMonth y m = 31 := by
  unfold daysInMonth
  rw [if_neg (by omega), if_neg (by omega)]

/-- Subtracting one year from a validated date decrements the year field
by exactly one, even when renormalization moves Feb 29 to Mar 1. -/
theorem addDateNeg1Y_year (c : Civil) (hvalid : c.day ≤ daysInMonth c.year c.month) :
    (addDateNeg1Y c).year = c.year - 1 := by
  unfold addDateNeg1Y normCivil
  split
  · split
    · exfalso
      rename_i h1 h2
      rw [daysInMonth_ge12 _ _ h2] at h1
      have h3 := hvalid
      rw [daysInMonth_ge12 c.year c.month h2] at h3
      omega
    · rfl
  · rfl

/-- Claim C4: for every year-less date text that parses under the primary
layout of `ParseUpdateDateTime` or `ParseDeliveryDate`, the candidate
timestamp carries the current year (the code appends `Itoa(now.Year())`
and the parse consumes it as the year field); if the candidate is
strictly after the current moment the result has its year decremented by
exactly one, otherwise the current year is kept. -/
theorem update_year_inference (now : Civil) (off : Int) (dateU tU dateD : String)
    (du dd : Civil)
    (hy1 : 1000 ≤ now.year) (hy2 : now.year < 10000)
    (hu : parseLayoutUpd1 (dateU ++ " " ++ defaultTime tU ++ " " ++ Itoa now.year) = some du)
    (hd : parseLayoutDel1 (dateD ++ " " ++ Itoa now.year) = some dd) :
    du.year = now.year ∧ dd.year = now.year ∧
    ParseUpdateDateTime now off dateU tU =
      formatRFC3339 off (if Civil.before now du then addDateNeg1Y du else du) ∧
    ParseDeliveryDate now off dateD =
      formatRFC3339 off (if Civil.before now dd then addDateNeg1Y dd else dd) ∧
    (addDateNeg1Y du).year = du.year - 1 ∧
    (addDateNeg1Y dd).year = dd.year - 1 := by
  obtain ⟨⟨csu, yu, hsfu, hgu, hyu⟩, hdu1, hdu2⟩ := parseLayoutUpd1_inv _ _ hu
  obtain ⟨⟨csd, yd, hsfd, hgd, hyd⟩, hdd1, hdd2⟩ := parseLayoutDel1_inv _ _ hd
  have hyru : (yu : Int) = now.year :=
    parse_year_suffix (dateU ++ " " ++ defaultTime tU ++ " ") now.year hy1 hy2 csu yu hsfu hgu
  have hyrd : (yd : Int) = now.year :=
    parse_year_suffix (dateD ++ " ") now.year hy1 hy2 csd yd hsfd hgd
  refine ⟨by rw [hyu, hyru], by rw [hyd, hyrd], ?_, ?_, ?_, ?_⟩
  · unfold ParseUpdateDateTime
    simp only [hu]
  · unfold ParseDeliveryDate
    simp only [hd]
  · exact addDateNeg1Y_year du hdu2
  · exact addDateNeg1Y_year dd hdd2

/-- Claim C4 witness: with date `"Sep 19"` and time `"2:51 PM"`, a
current moment after Sep 19 keeps the current year (2024) and a current
moment before Sep 19 rolls back to the previous year (2023); the same
rule applies to `ParseDeliveryDate`. -/
theorem update_year_inference_witness :
    ParseUpdateDateTime ⟨2024, 9, 20, 12, 0⟩ 0 "Sep 19" "2:51 PM" = "2024-09-19T14:51:00Z" ∧
    ParseUpdateDateTime ⟨2024, 9, 10, 12, 0⟩ 0 "Sep 19" "2:51 PM" = "2023-09-19T14:51:00Z" ∧
    ParseDeliveryDate ⟨2024, 9, 20, 12, 0⟩ 0 "Tue, Sep 19, 2:51 PM" = "2024-09-19T14:51:00Z" := by
  have h1 := update_year_inference ⟨2024, 9, 20, 12, 0⟩ 0 "Sep 19" "2:51 PM"
    "Tue, Sep 19, 2:51 PM" ⟨2024, 9, 19, 14, 51⟩ ⟨2024, 9, 19, 14, 51⟩
    (by decide) (by decide) (by decide) (by decide)
  have h2 := update_year_inference ⟨2024, 9, 10, 12, 0⟩ 0 "Sep 19" "2:51 PM"
    "Tue, Sep 19, 2:51 PM" ⟨2024, 9, 19, 14, 51⟩ ⟨2024, 9, 19, 14, 51⟩
    (by decide) (by decide) (by decide) (by decide)
  refine ⟨?_, ?_, ?_⟩
  · rw [h1.2.2.1]; decide
  · rw [h2.2.2.1]; decide
  · rw [h1.2.2.2.1]; decide

/-- Claim C5 counterexample: with an empty time text, the fallback of
`ParseUpdateDateTime` is the date joined with the defaulted time
`"12:00 AM"`, not with the raw (empty) time text as claimed. -/
theorem parse_update_fallback_not_raw_time :
    ParseUpdateDateTime ⟨2024, 1, 1, 0, 0⟩ 0 "garbage" "" = "garbage, 12:00 AM" ∧
    ParseUpdateDateTime ⟨2024, 1, 1, 0, 0⟩ 0 "garbage" "" ≠ "garbage" ++ ", " ++ "" :=
  ⟨by decide, by decide⟩

/-- Claim C5, amended: no date normalizer ever errors; when all its
layouts fail, `ParseUpdateDateTime` returns the raw date text joined by
`", "` with the time text after empty-time defaulting (an empty time is
replaced by `"12:00 AM"` before parsing and before the fallback), and
`ParseDeliveryDate` and `ParseEstimatedDelivery` return the raw input
verbatim. -/
theorem date_normalizers_total_fallback (now : Civil) (off : Int)
    (dateU tU dateD dateE : String)
    (hu1 : parseLayoutUpd1 (dateU ++ " " ++ defaultTime tU ++ " " ++ Itoa now.year) = none)
    (hu2 : parseLayoutUpd2 (dateU ++ " " ++ defaultTime tU) = none)
    (hd1 : parseLayoutDel1 (dateD ++ " " ++ Itoa now.year) = none)
    (hd2 : parseLayoutDel2 dateD = none)
    (he : parseLayoutEst dateE = none) :
    ParseUpdateDateTime now off dateU tU = dateU ++ ", " ++ defaultTime tU ∧
    ParseDeliveryDate now off dateD = dateD ∧
    ParseEstimatedDelivery off dateE = dateE := by
  refine ⟨?_, ?_, ?_⟩
  · unfold ParseUpdateDateTime
    simp only [hu1, hu2]
  · unfold ParseDeliveryDate
    simp only [hd1, hd2]
  · unfold ParseEstimatedDelivery
    simp only [he]

/-- Claim C5 amended witness: concrete unparseable inputs fall back to
the documented strings. -/
theorem date_normalizers_total_fallback_witness :
    ParseUpdateDateTime ⟨2024, 1, 1, 0, 0⟩ 0 "garbage" "x" = "garbage, x" ∧
    ParseDeliveryDate ⟨2024, 1, 1, 0, 0⟩ 0 "garbage" = "garbage" ∧
    ParseEstimatedDelivery 0 "garbage" = "garbage" := by
  have h := date_normalizers_total_fallback ⟨2024, 1, 1, 0, 0⟩ 0 "garbage" "x" "garbage"
    "garbage" (by decide) (by decide) (by decide) (by decide) (by decide)
  refine ⟨?_, h.2.1, h.2.2⟩
  rw [h.1]
  decide

/-- Claim C9 counterexample: feeding the two-argument fallback output of
`ParseUpdateDateTime` back into it (as the date, with either an empty
time or the original time) appends the time text again rather than
reproducing the same string, so the claimed idempotence fails for the
update normalizer. -/
theorem update_fallback_not_idempotent :
    ParseUpdateDateTime ⟨2024, 1, 1, 0, 0⟩ 0 "xyz" "abc" = "xyz, abc" ∧
    ParseUpdateDateTime ⟨2024, 1, 1, 0, 0⟩ 0 "xyz, abc" "" ≠ "xyz, abc" ∧
    ParseUpdateDateTime ⟨2024, 1, 1, 0, 0⟩ 0 "xyz, abc" "abc" ≠ "xyz, abc" :=
  ⟨by decide, by decide, by decide⟩

/-- Claim C9, amended: on inputs where all layouts fail, each
normalizer's fallback is a deterministic function of the raw inputs alone
(the same value for any two current times under which the layouts fail);
the single-argument normalizers `ParseDeliveryDate` and
`ParseEstimatedDelivery` are idempotent on such inputs, while the
two-argument `ParseUpdateDateTime` is stable across repeated calls with
the same arguments but is not idempotent under re-feeding its
concatenated fallback. -/
theorem fallback_deterministic_idempotent (now now' : Civil) (off : Int)
    (dateU tU dateD dateE : String)
    (hu1 : parseLayoutUpd1 (dateU ++ " " ++ defaultTime tU ++ " " ++ Itoa now.year) = none)
    (hu1' : parseLayoutUpd1 (dateU ++ " " ++ defaultTime tU ++ " " ++ Itoa now'.year) = none)
    (hu2 : parseLayoutUpd2 (dateU ++ " " ++ defaultTime tU) = none)
    (hd1 : parseLayoutDel1 (dateD ++ " " ++ Itoa now.year) = none)
    (hd1' : parseLayoutDel1 (dateD ++ " " ++ Itoa now'.year) = none)
    (hd2 : parseLayoutDel2 dateD = none)
    (he : parseLayoutEst dateE = none) :
    ParseUpdateDateTime now off dateU tU = ParseUpdateDateTime now' off dateU tU ∧
    ParseUpdateDateTime now off dateU tU = dateU ++ ", " ++ defaultTime tU ∧
    ParseDeliveryDate now off dateD = ParseDeliveryDate now' off dateD ∧
    ParseDeliveryDate now off (ParseDeliveryDate now off dateD) =
      ParseDeliveryDate now off dateD ∧
    ParseEstimatedDelivery off (ParseEstimatedDelivery off dateE) =
      ParseEstimatedDelivery off dateE := by
  have h1 : ParseUpdateDateTime now off dateU tU = dateU ++ ", " ++ defaultTime tU := by
    unfold ParseUpdateDateTime
    simp only [hu1, hu2]
  have h1' : ParseUpdateDateTime now' off dateU tU = dateU ++ ", " ++ defaultTime tU := by
    unfold ParseUpdateDateTime
    simp only [hu1', hu2]
  have h2 : ParseDeliveryDate now off dateD = dateD := by
    unfold ParseDeliveryDate
    simp only [hd1, hd2]
  have h2' : ParseDeliveryDate now' off dateD = dateD := by
    unfold ParseDeliveryDate
    simp only [hd1', hd2]
  have h3 : ParseEstimatedDelivery off dateE = dateE := by
    unfold ParseEstimatedDelivery
    simp only [he]
  refine ⟨by rw [h1, h1'], h1, by rw [h2, h2'], ?_, ?_⟩
  · rw [h2]
    exact h2
  · rw [h3]
    exact h3

/-- Claim C9 amended witness: concrete unparseable inputs exercise the
determinism and idempotence statements. -/
theorem fallback_deterministic_idempotent_witness :
    ParseUpdateDateTime ⟨2024, 1, 1, 0, 0⟩ 0 "xyz" "q" =
      ParseUpdateDateTime ⟨2025, 6, 1, 0, 0⟩ 0 "xyz" "q" ∧
    ParseDeliveryDate ⟨2024, 1, 1, 0, 0⟩ 0
      (ParseDeliveryDate ⟨2024, 1, 1, 0, 0⟩ 0 "xyz") =
      ParseDeliveryDate ⟨2024, 1, 1, 0, 0⟩ 0 "xyz" ∧
    ParseEstimatedDelivery 0 (ParseEstimatedDelivery 0 "xyz") =
      ParseEstimatedDelivery 0 "xyz" := by
  have h := fallback_deterministic_idempotent ⟨2024, 1, 1, 0, 0⟩ ⟨2025, 6, 1, 0, 0⟩ 0
    "xyz" "q" "xyz" "xyz" (by decide) (by decide) (by decide) (by decide) (by decide)
    (by decide) (by decide)
  exact ⟨h.1, h.2.2.2.1, h.2.2.2.2⟩
